import Mathlib

/-!
Shallow embedding of the tarq streaming technical-indicator library.

Each Rust indicator struct is translated to a Lean structure over an
arbitrary linear ordered field K (modelling exact f64 arithmetic); the
Rust constructor (new) is split into a total state builder (xxxInit) and
a validating constructor (Xxx.new) returning Except, and the Iterator
next method becomes a pure step function on the state.  Draining an
iterator (the calculate method) is modelled with a fuel-indexed loop
drainF; fuel data.length + 1 always dominates the number of steps.
BBands and Bbpb, whose step functions can panic (unwrap of an exhausted
sub-iterator), use an explicit StepResult type with a panic constructor.
-/

set_option maxHeartbeats 1000000

/-- Result of one call to a step function that may panic (Rust unwrap),
signal exhaustion (Rust None) or produce a value and successor state. -/
inductive StepResult (α σ : Type) : Type
  | panic : StepResult α σ
  | done : StepResult α σ
  | yield : α → σ → StepResult α σ
deriving Repr

/-- Result of a constructor that may panic (an internal unwrap firing),
return a descriptive error, or succeed. -/
inductive NewResult (σ : Type) : Type
  | panic : NewResult σ
  | err : String → NewResult σ
  | ok : σ → NewResult σ

def NewResult.isOk {σ : Type} : NewResult σ → Bool
  | .ok _ => true
  | _ => false

/-- Drain a non-panicking iterator with the given fuel: collect yielded
values until the step function returns none (Rust collect / extend). -/
def drainF {σ α : Type} (next : σ → Option (α × σ)) : Nat → σ → List α
  | 0, _ => []
  | n + 1, s =>
    match next s with
    | none => []
    | some (a, s') => a :: drainF next n s'

/-- Apply a panic-aware step function n+1 times, returning the result of
the last call (earlier non-yield results are returned as-is). -/
def iterSteps {σ α : Type} (next : σ → StepResult α σ) : Nat → σ → StepResult α σ
  | 0, s => next s
  | n + 1, s =>
    match next s with
    | .yield _ s' => iterSteps next n s'
    | r => r

section Indicators

variable {K : Type} [LinearOrderedField K]

/-- State of the Rust Sma struct (src/indicators/sma.rs). -/
structure Sma (K : Type) where
  data : List K
  period : Nat
  index : Nat
  sum : K
  len : Nat
  inv_period : K
deriving Repr

/-- The state Sma::new builds once validation passed: sum of the first
period elements, inv_period = 1/period. -/
def smaInit (data : List K) (period : Nat) : Sma K :=
  { data := data
    period := period
    index := 0
    sum := (data.take period).sum
    len := data.length
    inv_period := 1 / (period : K) }

/-- Sma::new: error on zero period or data shorter than period. -/
def Sma.new (data : List K) (period : Nat) : Except String (Sma K) :=
  if period = 0 then .error "Period must be greater than zero."
  else if data.length < period then .error "Insufficient data for SMA calculation."
  else .ok (smaInit data period)

/-- The value Sma emits at its current state: sum * inv_period. -/
def Sma.value (s : Sma K) : K := s.sum * s.inv_period

/-- Sma Iterator::next: emit sum * inv_period, then if data[index+period]
exists add it to the sum and subtract data[index]; advance the index. -/
def Sma.next (s : Sma K) : Option (K × Sma K) :=
  if s.index > s.len - s.period then none
  else
    let result := s.value
    let sum' :=
      match s.data[s.index + s.period]? with
      | some v => s.sum + v - s.data.getD s.index 0
      | none => s.sum
    some (result, { s with sum := sum', index := s.index + 1 })

/-- Sma calculate: drain the iterator. -/
def Sma.calculate (s : Sma K) : List K := drainF Sma.next (s.len + 1) s

/-- Construct and drain in one call (new followed by calculate). -/
def Sma.run (data : List K) (period : Nat) : Except String (List K) :=
  (Sma.new data period).map Sma.calculate

/-- State of the Rust Ema struct (src/indicators/ema.rs). -/
structure Ema (K : Type) where
  data : List K
  period : Nat
  index : Nat
  prev_ema : K
  smoothing : K
deriving Repr

/-- The state Ema::new builds: prev_ema 0.0, smoothing 2/(period+1). -/
def emaInit (data : List K) (period : Nat) : Ema K :=
  { data := data
    period := period
    index := 0
    prev_ema := 0
    smoothing := 2 / ((period : K) + 1) }

/-- Ema::new: error on zero period or data shorter than period. -/
def Ema.new (data : List K) (period : Nat) : Except String (Ema K) :=
  if period = 0 then .error "Period must be greater than 0"
  else if data.length < period then .error "Period cannot be greater than input data length"
  else .ok (emaInit data period)

/-- Ema Iterator::next: SMA seed on the first call, then the EMA
recurrence on data[index + period - 1]. -/
def Ema.next (s : Ema K) : Option (K × Ema K) :=
  if s.index + s.period > s.data.length then none
  else if s.index = 0 then
    let seed := (s.data.take s.period).sum / (s.period : K)
    some (seed, { s with prev_ema := seed, index := 1 })
  else if s.index < s.data.length then
    let e := (s.data.getD (s.index + s.period - 1) 0 - s.prev_ema) * s.smoothing + s.prev_ema
    some (e, { s with prev_ema := e, index := s.index + 1 })
  else none

/-- Ema calculate: drain the iterator. -/
def Ema.calculate (s : Ema K) : List K := drainF Ema.next (s.data.length + 1) s

/-- Construct and drain in one call. -/
def Ema.run (data : List K) (period : Nat) : Except String (List K) :=
  (Ema.new data period).map Ema.calculate

/-- State of the Rust Wma struct (src/indicators/wma.rs). -/
structure Wma (K : Type) where
  data : List K
  period : Nat
  index : Nat
  period_sum : K
  period_sub : K
  weight_total : K
deriving Repr

/-- The state Wma::new builds: rolling sums start at 0 (computed on the
first next call); weight_total is the usize value period*(period+1)/2. -/
def wmaInit (data : List K) (period : Nat) : Wma K :=
  { data := data
    period := period
    index := 0
    period_sum := 0
    period_sub := 0
    weight_total := ((period * (period + 1) / 2 : Nat) : K) }

/-- Wma::new: error on zero period or data shorter than period. -/
def Wma.new (data : List K) (period : Nat) : Except String (Wma K) :=
  if period = 0 then .error "Period must be greater than 0."
  else if data.length < period then .error "Period cannot be greater than input data length."
  else .ok (wmaInit data period)

/-- Wma Iterator::next.  First call: seed the weighted sum (weights are
1-based window positions) and the plain sum.  Later calls: the
telescoping update period_sum += incoming*period - period_sub, then swap
outgoing for incoming in period_sub. -/
def Wma.next (s : Wma K) : Option (K × Wma K) :=
  if s.index + s.period > s.data.length then none
  else if s.index = 0 then
    let psum := ∑ j in Finset.range s.period, s.data.getD j 0 * ((j : K) + 1)
    let psub := (s.data.take s.period).sum
    some (psum / s.weight_total,
      { s with period_sum := psum, period_sub := psub, index := 1 })
  else
    let incoming := s.data.getD (s.index + s.period - 1) 0 * (s.period : K)
    let psum := s.period_sum + incoming - s.period_sub
    let v := psum / s.weight_total
    let psub := s.period_sub + s.data.getD (s.index + s.period - 1) 0 - s.data.getD (s.index - 1) 0
    some (v, { s with period_sum := psum, period_sub := psub, index := s.index + 1 })

/-- Wma calculate: drain the iterator. -/
def Wma.calculate (s : Wma K) : List K := drainF Wma.next (s.data.length + 1) s

/-- Construct and drain in one call. -/
def Wma.run (data : List K) (period : Nat) : Except String (List K) :=
  (Wma.new data period).map Wma.calculate

/-- State of the Rust Vwma struct (src/indicators/vwma.rs). -/
structure Vwma (K : Type) where
  data : List K
  volume : List K
  period : Nat
  index : Nat
  rolling_sum : K
  rolling_sum_vol : K
deriving Repr

/-- The state Vwma::new builds. -/
def vwmaInit (data volume : List K) (period : Nat) : Vwma K :=
  { data := data
    volume := volume
    period := period
    index := 0
    rolling_sum := 0
    rolling_sum_vol := 0 }

/-- Vwma::new: error on zero period, short data, or mismatched lengths. -/
def Vwma.new (data volume : List K) (period : Nat) : Except String (Vwma K) :=
  if period = 0 then .error "Period must be set to a number greater than 0"
  else if data.length < period then .error "Period cannot be greater than input data length."
  else if data.length ≠ volume.length then .error "Data and volume must have the same length."
  else .ok (vwmaInit data volume period)

/-- Vwma Iterator::next: seed both rolling sums on the first call, then
add-incoming/subtract-outgoing on both; emit rolling_sum/rolling_sum_vol. -/
def Vwma.next (s : Vwma K) : Option (K × Vwma K) :=
  if s.index + s.period > s.data.length then none
  else if s.index = 0 then
    let rs := (List.zipWith (fun c v => c * v) (s.data.take s.period) (s.volume.take s.period)).sum
    let rsv := (s.volume.take s.period).sum
    some (rs / rsv, { s with rolling_sum := rs, rolling_sum_vol := rsv, index := 1 })
  else
    let og := s.index - 1
    let ic := s.index + s.period - 1
    let rs := s.rolling_sum + s.data.getD ic 0 * s.volume.getD ic 0
      - s.data.getD og 0 * s.volume.getD og 0
    let rsv := s.rolling_sum_vol + (s.volume.getD ic 0 - s.volume.getD og 0)
    some (rs / rsv, { s with rolling_sum := rs, rolling_sum_vol := rsv, index := s.index + 1 })

/-- Vwma calculate: drain the iterator. -/
def Vwma.calculate (s : Vwma K) : List K := drainF Vwma.next (s.data.length + 1) s

/-- Denotation of the EMA update loops inside Dema and Tema
initialization: fold the EMA recurrence over a list, returning the final
previous-EMA value together with the list of intermediate EMA values. -/
def emaSteps (sm : K) : K → List K → K × List K
  | prev, [] => (prev, [])
  | prev, x :: xs =>
    let e := (x - prev) * sm + prev
    let r := emaSteps sm e xs
    (r.1, e :: r.2)

/-- State of the Rust Dema struct (src/indicators/dema.rs). -/
structure Dema (K : Type) where
  data : List K
  index : Nat
  period : Nat
  prev_ema1 : K
  prev_ema2 : K
  smoothing : K
deriving Repr

/-- The state Dema::new builds. -/
def demaInit (data : List K) (period : Nat) : Dema K :=
  { data := data
    index := 0
    period := period
    prev_ema1 := 0
    prev_ema2 := 0
    smoothing := 2 / ((period : K) + 1) }

/-- Dema::new: error on zero period or data shorter than period (note:
no check against the 2*period-1 output threshold). -/
def Dema.new (data : List K) (period : Nat) : Except String (Dema K) :=
  if period = 0 then .error "Period must be greater than 0"
  else if data.length < period then .error "Period cannot be greater than input data length"
  else .ok (demaInit data period)

/-- Dema Iterator::next.  First call: seed EMA1 with the SMA of the
first period values, run the EMA1 loop over data[period..2*period-1),
seed EMA2 with the SMA of the collected EMA1 values, emit 2*EMA1-EMA2.
Later calls: chained EMA updates on data[index + 2*period - 2]. -/
def Dema.next (s : Dema K) : Option (K × Dema K) :=
  if s.index + (2 * s.period - 2) ≥ s.data.length then none
  else if s.index = 0 then
    let seed := (s.data.take s.period).sum / (s.period : K)
    let r := emaSteps s.smoothing seed ((s.data.drop s.period).take (s.period - 1))
    let e1 := r.1
    let ema1_values := seed :: r.2
    let e2 := ema1_values.sum / (s.period : K)
    some (2 * e1 - e2, { s with prev_ema1 := e1, prev_ema2 := e2, index := 1 })
  else
    let price := s.data.getD (s.index + (2 * s.period - 2)) 0
    let e1 := (price - s.prev_ema1) * s.smoothing + s.prev_ema1
    let e2 := (e1 - s.prev_ema2) * s.smoothing + s.prev_ema2
    some (2 * e1 - e2, { s with prev_ema1 := e1, prev_ema2 := e2, index := s.index + 1 })

/-- Dema calculate: drain the iterator. -/
def Dema.calculate (s : Dema K) : List K := drainF Dema.next (s.data.length + 1) s

/-- Construct and drain in one call. -/
def Dema.run (data : List K) (period : Nat) : Except String (List K) :=
  (Dema.new data period).map Dema.calculate

/-- State of the Rust Tema struct (src/indicators/tema.rs). -/
structure Tema (K : Type) where
  data : List K
  index : Nat
  period : Nat
  prev_ema1 : K
  prev_ema2 : K
  prev_ema3 : K
  smoothing : K
  len : Nat
deriving Repr

/-- The state Tema::new builds. -/
def temaInit (data : List K) (period : Nat) : Tema K :=
  { data := data
    index := 0
    period := period
    prev_ema1 := 0
    prev_ema2 := 0
    prev_ema3 := 0
    smoothing := 2 / ((period : K) + 1)
    len := data.length }

/-- Tema::new: error on zero period or data shorter than period (note:
no check against the 3*period-2 output threshold). -/
def Tema.new (data : List K) (period : Nat) : Except String (Tema K) :=
  if period = 0 then .error "Period must be greater than 0"
  else if data.length < period then .error "Period cannot be greater than input data length"
  else .ok (temaInit data period)

/-- Tema Iterator::next: triple chained EMA; the initialization phase
materializes period values of each inner pass exactly as the Rust loops
(iter().take(3p-2).skip(p) and take(2p-1).skip(p)). -/
def Tema.next (s : Tema K) : Option (K × Tema K) :=
  if s.index + (3 * s.period - 3) ≥ s.data.length then none
  else if s.index = 0 then
    let seed1 := (s.data.take s.period).sum / (s.period : K)
    let r1 := emaSteps s.smoothing seed1 ((s.data.take (3 * s.period - 2)).drop s.period)
    let e1 := r1.1
    let ema1_values := seed1 :: r1.2
    let seed2 := (ema1_values.take s.period).sum / (s.period : K)
    let r2 := emaSteps s.smoothing seed2 ((ema1_values.take (2 * s.period - 1)).drop s.period)
    let e2 := r2.1
    let ema2_values := seed2 :: r2.2
    let e3 := ema2_values.sum / (s.period : K)
    some (3 * e1 - 3 * e2 + e3,
      { s with prev_ema1 := e1, prev_ema2 := e2, prev_ema3 := e3, index := 1 })
  else
    let price := s.data.getD (s.index + (3 * s.period - 3)) 0
    let e1 := (price - s.prev_ema1) * s.smoothing + s.prev_ema1
    let e2 := (e1 - s.prev_ema2) * s.smoothing + s.prev_ema2
    let e3 := (e2 - s.prev_ema3) * s.smoothing + s.prev_ema3
    some (3 * e1 - 3 * e2 + e3,
      { s with prev_ema1 := e1, prev_ema2 := e2, prev_ema3 := e3, index := s.index + 1 })

/-- Tema calculate: drain the iterator. -/
def Tema.calculate (s : Tema K) : List K := drainF Tema.next (s.len + 1) s

/-- Construct and drain in one call. -/
def Tema.run (data : List K) (period : Nat) : Except String (List K) :=
  (Tema.new data period).map Tema.calculate

/-- State of the Rust Kama struct (src/indicators/kama.rs); fast and
slow already converted to smoothing constants 2/(n+1). -/
structure Kama (K : Type) where
  data : List K
  period : Nat
  fast : K
  slow : K
  index : Nat
  prev_kama : K
  sum_roc : K
  trailing_value : K
deriving Repr

/-- The state Kama::new builds: sum_roc is the sum of absolute one-step
changes over data[..period], prev_kama seeds to data[period-1], the
cursor starts at period. -/
def kamaInit (data : List K) (period fast slow : Nat) : Kama K :=
  { data := data
    period := period
    fast := 2 / ((fast : K) + 1)
    slow := 2 / ((slow : K) + 1)
    index := period
    prev_kama := data.getD (period - 1) 0
    sum_roc := ∑ j in Finset.range (period - 1), |data.getD (j + 1) 0 - data.getD j 0|
    trailing_value := data.getD 0 0 }

/-- Kama::new: error on zero period, data shorter than period, or data
of length at most 1. -/
def Kama.new (data : List K) (period fast slow : Nat) : Except String (Kama K) :=
  if period = 0 then .error "Period must be greater than 0."
  else if data.length < period then .error "Period cannot be greater than input data length."
  else if data.length ≤ 1 then .error "Data length must be greater than 1."
  else .ok (kamaInit data period fast slow)

/-- Kama Iterator::next: rolling-update the efficiency ratio (0 when the
updated sum_roc is 0), square the smoothing constant, and advance the
adaptive recurrence. -/
def Kama.next (s : Kama K) : Option (K × Kama K) :=
  if s.index ≥ s.data.length then none
  else
    let price_change := |s.data.getD s.index 0 - s.data.getD (s.index - s.period) 0|
    let roc := s.sum_roc - |s.data.getD (s.index - s.period) 0 - s.trailing_value|
      + |s.data.getD s.index 0 - s.data.getD (s.index - 1) 0|
    let trail := s.data.getD (s.index - s.period) 0
    let er := if roc = 0 then 0 else price_change / roc
    let sc0 := er * (s.fast - s.slow) + s.slow
    let sc := sc0 * sc0
    let kama := s.prev_kama + sc * (s.data.getD s.index 0 - s.prev_kama)
    some (kama,
      { s with prev_kama := kama, sum_roc := roc, trailing_value := trail, index := s.index + 1 })

/-- Kama calculate: drain the iterator. -/
def Kama.calculate (s : Kama K) : List K := drainF Kama.next (s.data.length + 1) s

/-- Construct and drain in one call. -/
def Kama.run (data : List K) (period fast slow : Nat) : Except String (List K) :=
  (Kama.new data period fast slow).map Kama.calculate

/-- True range at index i (src/indicators/atr.rs):
tr1.max(tr2).max(tr3) with tr1 = high-low, tr2 = |high - prev close|,
tr3 = |low - prev close|. -/
def trAt (high low close : List K) (i : Nat) : K :=
  max (max (high.getD i 0 - low.getD i 0) |high.getD i 0 - close.getD (i - 1) 0|)
    |low.getD i 0 - close.getD (i - 1) 0|

/-- State of the Rust Atr struct (src/indicators/atr.rs). -/
structure Atr (K : Type) where
  high : List K
  low : List K
  close : List K
  period : Nat
  index : Nat
  previous_tr : K
  len : Nat
deriving Repr

/-- The state Atr::new builds. -/
def atrInit (high low close : List K) (period : Nat) : Atr K :=
  { high := high
    low := low
    close := close
    period := period
    index := 0
    previous_tr := 0
    len := close.length }

/-- Atr::new: error on zero period, any input shorter than period, or
mismatched lengths. -/
def Atr.new (high low close : List K) (period : Nat) : Except String (Atr K) :=
  if period = 0 then .error "Period must be greater than zero."
  else if high.length < period ∨ low.length < period ∨ close.length < period then
    .error "Insufficient data for ATR calculation."
  else if high.length ≠ low.length ∨ low.length ≠ close.length ∨ high.length ≠ close.length then
    .error "All inputs must have the same length."
  else .ok (atrInit high low close period)

/-- Atr Iterator::next: first call emits the mean of the true range over
indices 1..=period; later calls apply Wilder smoothing
(prev*(period-1) + tr) / period to the true range at index+period. -/
def Atr.next (s : Atr K) : Option (K × Atr K) :=
  if s.index + s.period ≥ s.len then none
  else if s.index = 0 then
    let v := (∑ i in Finset.range s.period, trAt s.high s.low s.close (i + 1)) / (s.period : K)
    some (v, { s with previous_tr := v, index := 1 })
  else
    let tr := trAt s.high s.low s.close (s.index + s.period)
    let v := (s.previous_tr * ((s.period - 1 : Nat) : K) + tr) / (s.period : K)
    some (v, { s with previous_tr := v, index := s.index + 1 })

/-- Atr calculate: drain the iterator. -/
def Atr.calculate (s : Atr K) : List K := drainF Atr.next (s.len + 1) s

/-- Construct and drain in one call. -/
def Atr.run (high low close : List K) (period : Nat) : Except String (List K) :=
  (Atr.new high low close period).map Atr.calculate

end Indicators

/-- The Rust MovingAverage enum (src/enums.rs): a closed tagged union
over the seven pre-constructed moving-average instances, at the f64
(here: real) instantiation used by BBands. -/
inductive MovingAverage : Type
  | SMA : Sma ℝ → MovingAverage
  | EMA : Ema ℝ → MovingAverage
  | WMA : Wma ℝ → MovingAverage
  | VWMA : Vwma ℝ → MovingAverage
  | DEMA : Dema ℝ → MovingAverage
  | TEMA : Tema ℝ → MovingAverage
  | KAMA : Kama ℝ → MovingAverage

/-- State of the Rust BBands struct (src/indicators/bbands.rs). -/
structure BBands where
  data : List ℝ
  period : Nat
  std_dev : ℝ
  ma_type : MovingAverage
  index : Nat
  rolling_sq_sum : ℝ
  sma : Sma ℝ

/-- The state BBands::new builds (index 0, rolling_sq_sum 0, plus an
internal SMA over the same data and period). -/
noncomputable def bbandsInit (data : List ℝ) (period : Nat) (std_dev : ℝ)
    (ma_type : MovingAverage) : BBands :=
  { data := data
    period := period
    std_dev := std_dev
    ma_type := ma_type
    index := 0
    rolling_sq_sum := 0
    sma := smaInit data period }

/-- BBands::new: error on zero period or short data; the inner
Sma::new error is propagated by the question-mark operator. -/
noncomputable def BBands.new (data : List ℝ) (period : Nat) (std_dev : ℝ)
    (ma_type : MovingAverage) : Except String BBands :=
  if period = 0 then .error "Period must be set to a number greater than 0"
  else if data.length < period then .error "Period cannot be greater than input data length."
  else
    match Sma.new data period with
    | .error e => .error e
    | .ok _ => .ok (bbandsInit data period std_dev ma_type)

/-- The rolling sum-of-squares value BBands::next computes before taking
the mean: seeded over the first window on the first call, rolling-updated
afterwards (the redundant index+period bound mirrors the source). -/
def BBands.updSq (s : BBands) : ℝ :=
  if s.index = 0 then ((s.data.take s.period).map (fun x => x * x)).sum
  else if s.index + s.period ≤ s.data.length then
    s.rolling_sq_sum + s.data.getD (s.index + s.period - 1) 0 * s.data.getD (s.index + s.period - 1) 0
      - s.data.getD (s.index - 1) 0 * s.data.getD (s.index - 1) 0
  else s.rolling_sq_sum

/-- The middle-band match arm of BBands::next: advance the selected
variant and return its value (as an Option whose None means the unwrap
panics), except that the SMA arm reuses the internal mean and does not
advance the stored instance. -/
noncomputable def maStep : MovingAverage → ℝ → Option (ℝ × MovingAverage)
  | .SMA a, mean => some (mean, .SMA a)
  | .EMA a, _ => (Ema.next a).map (fun r => (r.1, .EMA r.2))
  | .WMA a, _ => (Wma.next a).map (fun r => (r.1, .WMA r.2))
  | .DEMA a, _ => (Dema.next a).map (fun r => (r.1, .DEMA r.2))
  | .TEMA a, _ => (Tema.next a).map (fun r => (r.1, .TEMA r.2))
  | .VWMA a, _ => (Vwma.next a).map (fun r => (r.1, .VWMA r.2))
  | .KAMA a, _ => (Kama.next a).map (fun r => (r.1, .KAMA r.2))

/-- BBands Iterator::next: update the square sum, unwrap the internal
SMA step (panicking if exhausted), obtain the middle band from the
selected variant (unwrapping its step), then build the bands from the
SMA-mean variance, standard deviation sqrt(sum_sq/period - mean^2), and
upper/lower = middle plus/minus std_dev multiplier times it. -/
noncomputable def BBands.next (s : BBands) : StepResult (ℝ × ℝ × ℝ) BBands :=
  if s.index + s.period > s.data.length then .done
  else
    match Sma.next s.sma with
    | none => .panic
    | some (mean, sma') =>
      match maStep s.ma_type mean with
      | none => .panic
      | some (middle_band, ma') =>
        .yield
          (middle_band + s.std_dev * Real.sqrt (s.updSq / (s.period : ℝ) - mean * mean),
            middle_band,
            middle_band - s.std_dev * Real.sqrt (s.updSq / (s.period : ℝ) - mean * mean))
          { s with index := s.index + 1, rolling_sq_sum := s.updSq, sma := sma', ma_type := ma' }

/-- State of the Rust Bbpb struct (src/indicators/bbpb.rs). -/
structure Bbpb where
  data : List ℝ
  period : Nat
  index : Nat
  bbands : BBands
  len : Nat

/-- Bbpb::new: after its own period and length checks it calls
BBands::new(...).unwrap(); an inner error would be a panic. -/
noncomputable def Bbpb.new (data : List ℝ) (period : Nat) (std_dev : ℝ)
    (ma_type : MovingAverage) : NewResult Bbpb :=
  if period = 0 then .err "Period must be set to a number greater than 0"
  else if data.length < period then .err "Period cannot be greater than input data length."
  else
    match BBands.new data period std_dev ma_type with
    | .error _ => .panic
    | .ok bb =>
      .ok { data := data, period := period, index := 0, bbands := bb, len := data.length }

/-- Bbpb Iterator::next: unwrap the inner BBands step (panic if it is
exhausted or itself panics) and emit (price - lower) / (upper - lower). -/
noncomputable def Bbpb.next (s : Bbpb) : StepResult ℝ Bbpb :=
  if s.index + s.period > s.data.length then .done
  else
    match BBands.next s.bbands with
    | .panic => .panic
    | .done => .panic
    | .yield (upperband, _, lowerband) bb' =>
      let bandwith := (s.data.getD (s.index + s.period - 1) 0 - lowerband) / (upperband - lowerband)
      .yield bandwith { s with index := s.index + 1, bbands := bb' }

section Machinery

variable {K : Type} [LinearOrderedField K]

/-- The direct (non-rolling) sum of the window of the given period
starting at index i. -/
def winSum (data : List K) (period i : Nat) : K :=
  ∑ j in Finset.range period, data.getD (i + j) 0

/-- The direct linearly-weighted window sum: each price times its
1-based position within the window. -/
def wSum (data : List K) (period i : Nat) : K :=
  ∑ j in Finset.range period, data.getD (i + j) 0 * ((j : K) + 1)

theorem sum_take_eq_winSum (data : List K) (p : Nat) : (data.take p).sum = winSum data p 0 := by
  induction p with
  | zero => simp [winSum]
  | succ p ih =>
    rw [List.take_succ, List.sum_append, ih]
    unfold winSum
    rw [Finset.sum_range_succ]
    congr 1
    rw [Nat.zero_add, List.getD_eq_getElem?_getD]
    cases h : data[p]? with
    | none => simp [h]
    | some v => simp [h]

theorem winSum_succ (data : List K) (p i : Nat) :
    winSum data p (i + 1) = winSum data p i + data.getD (i + p) 0 - data.getD i 0 := by
  have h1 : ∑ j in Finset.range p, data.getD (i + (j + 1)) 0
      = (∑ j in Finset.range p, data.getD (i + j) 0) + data.getD (i + p) 0 - data.getD i 0 := by
    have h2 := Finset.sum_range_succ' (fun j => data.getD (i + j) 0) p
    rw [Finset.sum_range_succ] at h2
    have : (i : Nat) + 0 = i := by omega
    rw [this] at h2
    linarith [h2]
  calc winSum data p (i + 1) = ∑ j in Finset.range p, data.getD (i + (j + 1)) 0 := by
        unfold winSum; apply Finset.sum_congr rfl; intro j _; congr 1; omega
    _ = _ := by rw [h1]; rfl

theorem wSum_succ (data : List K) (p i : Nat) :
    wSum data p (i + 1) = wSum data p i + data.getD (i + p) 0 * (p : K) - winSum data p i := by
  have key : ∑ j in Finset.range p, data.getD (i + j) 0 * (j : K)
      = ∑ j in Finset.range p, data.getD (i + (j + 1)) 0 * ((j : K) + 1) - data.getD (i + p) 0 * (p : K) := by
    have h2 := Finset.sum_range_succ' (fun j => data.getD (i + j) 0 * (j : K)) p
    rw [Finset.sum_range_succ] at h2
    have e0 : (i : Nat) + 0 = i := by omega
    rw [e0] at h2
    have e1 : ∀ j : Nat, data.getD (i + (j + 1)) 0 * (((j : K)) + 1)
        = data.getD (i + (j + 1)) 0 * (((j + 1 : Nat) : K)) := by
      intro j; push_cast; ring
    rw [Finset.sum_congr rfl (fun j _ => e1 j)]
    have := h2
    push_cast at this ⊢
    linarith [this]
  have expand : wSum data p i - winSum data p i
      = ∑ j in Finset.range p, data.getD (i + j) 0 * (j : K) := by
    unfold wSum winSum
    rw [← Finset.sum_sub_distrib]
    apply Finset.sum_congr rfl
    intro j _; ring
  have shift : wSum data p (i + 1) = ∑ j in Finset.range p, data.getD (i + (j + 1)) 0 * ((j : K) + 1) := by
    unfold wSum
    apply Finset.sum_congr rfl
    intro j _; congr 2; omega
  rw [shift]
  have := expand
  linarith [key, expand]

theorem getD_map_range {α : Type} (f : Nat → α) (n i : Nat) (hi : i < n) (d : α) :
    ((List.range n).map f).getD i d = f i := by
  rw [List.getD_eq_getElem?_getD]
  simp [List.getElem?_map, List.getElem?_range hi]

/-- Drained output of an iterator whose step function, under an indexed
invariant, emits out i at cursor i below the bound N and is exhausted at
or beyond N. -/
theorem drainF_eq_map {σ α : Type} (next : σ → Option (α × σ)) (inv : Nat → σ → Prop)
    (out : Nat → α) (N : Nat)
    (hstep : ∀ i s, inv i s → i < N → ∃ s', next s = some (out i, s') ∧ inv (i + 1) s')
    (hstop : ∀ i s, inv i s → N ≤ i → next s = none) :
    ∀ (n i : Nat) (s : σ), inv i s → N - i ≤ n →
      drainF next n s = (List.range (N - i)).map (fun j => out (i + j)) := by
  intro n
  induction n with
  | zero =>
    intro i s _ hn
    have h0 : N - i = 0 := Nat.le_zero.mp hn
    simp [drainF, h0]
  | succ n ih =>
    intro i s hs hn
    by_cases hi : i < N
    · obtain ⟨s', hnext, hinv⟩ := hstep i s hs hi
      have hrem : N - (i + 1) ≤ n := by omega
      have hNi : N - i = (N - (i + 1)) + 1 := by omega
      have hfun : (fun j => out (i + j)) ∘ Nat.succ = fun j => out (i + 1 + j) := by
        funext j
        simp only [Function.comp]
        congr 1
        omega
      simp only [drainF, hnext]
      rw [ih (i + 1) s' hinv hrem, hNi, List.range_succ_eq_map, List.map_cons, List.map_map, hfun]
      simp
    · have hnone := hstop i s hs (Nat.le_of_not_lt hi)
      have h0 : N - i = 0 := by omega
      simp [drainF, hnone, h0]

end Machinery

/-- Every result of iterating a panic-aware step function satisfies P,
given a state invariant under which single steps satisfy P and yields
preserve the invariant. -/
theorem iterSteps_invariant {σ α : Type} (next : σ → StepResult α σ) (inv : σ → Prop)
    (P : StepResult α σ → Prop)
    (hstep : ∀ s, inv s → P (next s))
    (hpres : ∀ s a s', inv s → next s = .yield a s' → inv s') :
    ∀ n s, inv s → P (iterSteps next n s) := by
  intro n
  induction n with
  | zero => intro s hs; exact hstep s hs
  | succ n ih =>
    intro s hs
    cases hnext : next s with
    | yield a s' =>
      have := ih s' (hpres s a s' hs hnext)
      simpa [iterSteps, hnext] using this
    | panic =>
      have := hstep s hs
      rw [hnext] at this
      simpa [iterSteps, hnext] using this
    | done =>
      have := hstep s hs
      rw [hnext] at this
      simpa [iterSteps, hnext] using this

section SmaProofs

variable {K : Type} [LinearOrderedField K]

/-- Cursor-indexed invariant of the Sma iterator state. -/
def smaInv (data : List K) (p i : Nat) (s : Sma K) : Prop :=
  s.data = data ∧ s.period = p ∧ s.len = data.length ∧ s.index = i ∧
    s.inv_period = 1 / (p : K) ∧ (i < data.length - p + 1 → s.sum = winSum data p i)

theorem sma_drain (data : List K) (p : Nat) (hp : 1 ≤ p) (hlen : p ≤ data.length) :
    Sma.calculate (smaInit data p)
      = (List.range (data.length - p + 1)).map (fun j => winSum data p j * (1 / (p : K))) := by
  have hstep : ∀ i s, smaInv data p i s → i < data.length - p + 1 →
      ∃ s', Sma.next s = some (winSum data p i * (1 / (p : K)), s')
        ∧ smaInv data p (i + 1) s' := by
    intro i s hs hi
    obtain ⟨hd, hper, hl, hidx, hip, hsum⟩ := hs
    have hguard : ¬ s.index > s.len - s.period := by
      rw [hidx, hl, hper]; omega
    have hv : s.value = winSum data p i * (1 / (p : K)) := by
      unfold Sma.value
      rw [hsum hi, hip]
    refine ⟨{ s with
        sum := match s.data[s.index + s.period]? with
          | some v => s.sum + v - s.data.getD s.index 0
          | none => s.sum,
        index := s.index + 1 }, ?_, ?_⟩
    · simp only [Sma.next, if_neg hguard, hv]
    · refine ⟨hd, hper, hl, by simp [hidx], hip, ?_⟩
      intro h1
      have hin : i + p < data.length := by omega
      have hsome : s.data[s.index + s.period]? = some (data.getD (i + p) 0) := by
        rw [hd, hidx, hper, List.getElem?_eq_getElem hin]
        congr 1
        rw [List.getD_eq_getElem?_getD, List.getElem?_eq_getElem hin]
        rfl
      simp only [hsome]
      rw [hsum hi, hd, hidx, winSum_succ]
  have hstop : ∀ i s, smaInv data p i s → data.length - p + 1 ≤ i → Sma.next s = none := by
    intro i s hs hN
    obtain ⟨_, hper, hl, hidx, _, _⟩ := hs
    unfold Sma.next
    rw [if_pos]
    rw [hidx, hl, hper]
    omega
  have hinit : smaInv data p 0 (smaInit data p) := by
    refine ⟨rfl, rfl, rfl, rfl, rfl, ?_⟩
    intro _
    exact sum_take_eq_winSum data p
  have := drainF_eq_map Sma.next (smaInv data p)
    (fun i => winSum data p i * (1 / (p : K))) (data.length - p + 1) hstep hstop
    (data.length + 1) 0 (smaInit data p) hinit (by omega)
  unfold Sma.calculate
  rw [show (smaInit data p).len = data.length from rfl, this]
  simp

end SmaProofs

/-- Claim C4: for every data slice and period with period at least 1 and
data.len() at least period, Sma's calculate returns exactly
data.len() - period + 1 values whose i-th entry is the i-th rolling
window sum times 1/period; in particular SMA over [1..10] with period 3
is exactly [2,3,4,5,6,7,8,9]. -/
theorem sma_length_values_spec :
    (∀ (K : Type) [LinearOrderedField K] (data : List K) (p : Nat),
      1 ≤ p → p ≤ data.length →
        Sma.run data p = .ok (Sma.calculate (smaInit data p)) ∧
        (Sma.calculate (smaInit data p)).length = data.length - p + 1 ∧
        ∀ i, i < data.length - p + 1 →
          (Sma.calculate (smaInit data p)).getD i 0 = winSum data p i * (1 / (p : K)))
    ∧ Sma.run ([1,2,3,4,5,6,7,8,9,10] : List ℚ) 3 = .ok [2,3,4,5,6,7,8,9] := by
  constructor
  · intro K _ data p hp hlen
    refine ⟨?_, ?_, ?_⟩
    · unfold Sma.run Sma.new
      rw [if_neg (by omega), if_neg (by omega)]
      rfl
    · rw [sma_drain data p hp hlen]
      simp
    · intro i hi
      rw [sma_drain data p hp hlen]
      exact getD_map_range _ _ i hi 0
  · simp [Sma.run, Sma.new, Except.map, Sma.calculate, smaInit, drainF, Sma.next, Sma.value]
    norm_num

/-- Witness for claim C4: the theorem applied to the ramp 1..10 over the
rationals with period 3. -/
theorem sma_length_values_spec_witness :
    (1 ≤ 3 ∧ 3 ≤ ([1,2,3,4,5,6,7,8,9,10] : List ℚ).length) ∧
      (Sma.calculate (smaInit ([1,2,3,4,5,6,7,8,9,10] : List ℚ) 3)).length
        = ([1,2,3,4,5,6,7,8,9,10] : List ℚ).length - 3 + 1 :=
  ⟨⟨by decide, by decide⟩,
    (sma_length_values_spec.1 ℚ ([1,2,3,4,5,6,7,8,9,10] : List ℚ) 3
      (by decide) (by decide)).2.1⟩

section EmaProofs

variable {K : Type} [LinearOrderedField K]

/-- The mathematical EMA output sequence: SMA seed, then the smoothing
recurrence on successive prices. -/
def emaOut (data : List K) (p : Nat) : Nat → K
  | 0 => (data.take p).sum / (p : K)
  | i + 1 => (data.getD (i + p) 0 - emaOut data p i) * (2 / ((p : K) + 1)) + emaOut data p i

/-- Cursor-indexed invariant of the Ema iterator state. -/
def emaInv (data : List K) (p i : Nat) (s : Ema K) : Prop :=
  s.data = data ∧ s.period = p ∧ s.smoothing = 2 / ((p : K) + 1) ∧ s.index = i ∧
    (1 ≤ i → s.prev_ema = emaOut data p (i - 1))

theorem ema_drain (data : List K) (p : Nat) (hp : 1 ≤ p) (hlen : p ≤ data.length) :
    Ema.calculate (emaInit data p)
      = (List.range (data.length - p + 1)).map (emaOut data p) := by
  have hstep : ∀ i s, emaInv data p i s → i < data.length - p + 1 →
      ∃ s', Ema.next s = some (emaOut data p i, s') ∧ emaInv data p (i + 1) s' := by
    intro i s hs hi
    obtain ⟨hd, hper, hsm, hidx, hprev⟩ := hs
    have hguard : ¬ s.index + s.period > s.data.length := by
      rw [hidx, hper, hd]; omega
    by_cases h0 : i = 0
    · subst h0
      refine ⟨{ s with prev_ema := (s.data.take s.period).sum / (s.period : K), index := 1 }, ?_, ?_⟩
      · simp only [Ema.next, if_neg hguard, if_pos (hidx.trans rfl)]
        rw [hd, hper]
        rfl
      · exact ⟨hd, hper, hsm, rfl, fun _ => by simp [hd, hper, emaOut]⟩
    · have h1 : 1 ≤ i := by omega
      have hlt : s.index < s.data.length := by
        rw [hidx, hd]; omega
      have hne : ¬ s.index = 0 := by rw [hidx]; exact h0
      obtain ⟨i', rfl⟩ : ∃ i', i = i' + 1 := ⟨i - 1, by omega⟩
      have he : (s.data.getD (s.index + s.period - 1) 0 - s.prev_ema) * s.smoothing + s.prev_ema
          = emaOut data p (i' + 1) := by
        rw [hd, hper, hsm, hidx, hprev h1]
        rw [show i' + 1 - 1 = i' by omega, show i' + 1 + p - 1 = i' + p by omega]
        simp [emaOut]
      refine ⟨{ s with
          prev_ema := (s.data.getD (s.index + s.period - 1) 0 - s.prev_ema) * s.smoothing + s.prev_ema,
          index := s.index + 1 }, ?_, ?_⟩
      · simp only [Ema.next, if_neg hguard, if_neg hne, if_pos hlt]
        rw [he]
      · refine ⟨hd, hper, hsm, by simp [hidx], ?_⟩
        intro _
        rw [show i' + 1 + 1 - 1 = i' + 1 by omega]
        exact he
  have hstop : ∀ i s, emaInv data p i s → data.length - p + 1 ≤ i → Ema.next s = none := by
    intro i s hs hN
    obtain ⟨hd, hper, _, hidx, _⟩ := hs
    unfold Ema.next
    rw [if_pos]
    rw [hidx, hper, hd]
    omega
  have hinit : emaInv data p 0 (emaInit data p) :=
    ⟨rfl, rfl, rfl, rfl, fun h => absurd h (by omega)⟩
  have := drainF_eq_map Ema.next (emaInv data p) (emaOut data p) (data.length - p + 1)
    hstep hstop (data.length + 1) 0 (emaInit data p) hinit (by omega)
  unfold Ema.calculate
  rw [show (emaInit data p).data = data from rfl, this]
  simp

end EmaProofs

/-- Claim C5: for every data slice and period with period at least 1 and
data.len() at least period, the EMA output has length
data.len() - period + 1, its first value is the SMA of the first period
elements, and each subsequent value follows the smoothing recurrence
prev + (data[index+period-1] - prev) * 2/(period+1) on the previously
emitted value. -/
theorem ema_seed_recurrence_spec :
    ∀ (K : Type) [LinearOrderedField K] (data : List K) (p : Nat),
      1 ≤ p → p ≤ data.length →
        Ema.run data p = .ok (Ema.calculate (emaInit data p)) ∧
        (Ema.calculate (emaInit data p)).length = data.length - p + 1 ∧
        (Ema.calculate (emaInit data p)).getD 0 0 = (data.take p).sum / (p : K) ∧
        ∀ i, i + 1 < data.length - p + 1 →
          (Ema.calculate (emaInit data p)).getD (i + 1) 0
            = ((data.getD (i + p) 0 - (Ema.calculate (emaInit data p)).getD i 0)
                * (2 / ((p : K) + 1)) + (Ema.calculate (emaInit data p)).getD i 0) := by
  intro K _ data p hp hlen
  refine ⟨?_, ?_, ?_, ?_⟩
  · unfold Ema.run Ema.new
    rw [if_neg (by omega), if_neg (by omega)]
    rfl
  · rw [ema_drain data p hp hlen]
    simp
  · rw [ema_drain data p hp hlen, getD_map_range _ _ 0 (by omega) 0]
    rfl
  · intro i hi
    rw [ema_drain data p hp hlen, getD_map_range _ _ (i + 1) (by omega) 0,
      getD_map_range _ _ i (by omega) 0]
    simp [emaOut]

/-- Witness for claim C5 at period 2 over a four-element list of
rationals. -/
theorem ema_seed_recurrence_spec_witness :
    (1 ≤ 2 ∧ 2 ≤ ([1,2,3,4] : List ℚ).length) ∧
      (Ema.calculate (emaInit ([1,2,3,4] : List ℚ) 2)).getD 0 0
        = (([1,2,3,4] : List ℚ).take 2).sum / (2 : ℚ) :=
  ⟨⟨by decide, by decide⟩,
    (ema_seed_recurrence_spec ℚ ([1,2,3,4] : List ℚ) 2 (by decide) (by decide)).2.2.1⟩

section WmaProofs

variable {K : Type} [LinearOrderedField K]

/-- Cursor-indexed invariant of the Wma iterator state: after the first
emission the rolling weighted sum and rolling plain sum hold the values
for the window that was just emitted. -/
def wmaInv (data : List K) (p i : Nat) (s : Wma K) : Prop :=
  s.data = data ∧ s.period = p ∧ s.weight_total = ((p * (p + 1) / 2 : Nat) : K) ∧ s.index = i ∧
    (1 ≤ i → s.period_sum = wSum data p (i - 1) ∧ s.period_sub = winSum data p (i - 1))

theorem wma_drain (data : List K) (p : Nat) (hp : 1 ≤ p) (hlen : p ≤ data.length) :
    Wma.calculate (wmaInit data p)
      = (List.range (data.length - p + 1)).map
          (fun j => wSum data p j / ((p * (p + 1) / 2 : Nat) : K)) := by
  have hw0 : ∀ s : Wma K, s.data = data → s.period = p →
      (∑ j in Finset.range s.period, s.data.getD j 0 * ((j : K) + 1)) = wSum data p 0 := by
    intro s hd hper
    rw [hd, hper]
    unfold wSum
    exact Finset.sum_congr rfl (fun j _ => by rw [Nat.zero_add])
  have hstep : ∀ i s, wmaInv data p i s → i < data.length - p + 1 →
      ∃ s', Wma.next s = some (wSum data p i / ((p * (p + 1) / 2 : Nat) : K), s')
        ∧ wmaInv data p (i + 1) s' := by
    intro i s hs hi
    obtain ⟨hd, hper, hwt, hidx, hroll⟩ := hs
    have hguard : ¬ s.index + s.period > s.data.length := by
      rw [hidx, hper, hd]; omega
    by_cases h0 : i = 0
    · subst h0
      refine ⟨{ s with
          period_sum := ∑ j in Finset.range s.period, s.data.getD j 0 * ((j : K) + 1),
          period_sub := (s.data.take s.period).sum,
          index := 1 }, ?_, ?_⟩
      · simp only [Wma.next, if_neg hguard, if_pos (hidx.trans rfl)]
        rw [hw0 s hd hper, hwt]
      · refine ⟨hd, hper, hwt, rfl, fun _ => ⟨?_, ?_⟩⟩
        · simpa using hw0 s hd hper
        · rw [hd, hper]
          simpa using sum_take_eq_winSum data p
    · have h1 : 1 ≤ i := by omega
      have hne : ¬ s.index = 0 := by rw [hidx]; exact h0
      obtain ⟨i', rfl⟩ : ∃ i', i = i' + 1 := ⟨i - 1, by omega⟩
      obtain ⟨hpsum, hpsub⟩ := hroll h1
      have hidx1 : i' + 1 - 1 = i' := by omega
      have hixp : s.index + s.period - 1 = i' + p := by rw [hidx, hper]; omega
      have hixm : s.index - 1 = i' := by rw [hidx]; omega
      have hval : s.period_sum + s.data.getD (s.index + s.period - 1) 0 * (s.period : K)
          - s.period_sub = wSum data p (i' + 1) := by
        rw [hpsum, hpsub, hidx1, hd, hixp, hper, wSum_succ]
      have hsub : s.period_sub + s.data.getD (s.index + s.period - 1) 0 - s.data.getD (s.index - 1) 0
          = winSum data p (i' + 1) := by
        rw [hpsub, hidx1, hd, hixp, hixm, winSum_succ]
      refine ⟨{ s with
          period_sum := s.period_sum + s.data.getD (s.index + s.period - 1) 0 * (s.period : K)
            - s.period_sub,
          period_sub := s.period_sub + s.data.getD (s.index + s.period - 1) 0
            - s.data.getD (s.index - 1) 0,
          index := s.index + 1 }, ?_, ?_⟩
      · simp only [Wma.next, if_neg hguard, if_neg hne]
        rw [hval, hwt]
      · refine ⟨hd, hper, hwt, by simp [hidx], fun _ => ⟨?_, ?_⟩⟩
        · rw [show i' + 1 + 1 - 1 = i' + 1 by omega]
          exact hval
        · rw [show i' + 1 + 1 - 1 = i' + 1 by omega]
          exact hsub
  have hstop : ∀ i s, wmaInv data p i s → data.length - p + 1 ≤ i → Wma.next s = none := by
    intro i s hs hN
    obtain ⟨hd, hper, _, hidx, _⟩ := hs
    unfold Wma.next
    rw [if_pos]
    rw [hidx, hper, hd]
    omega
  have hinit : wmaInv data p 0 (wmaInit data p) :=
    ⟨rfl, rfl, rfl, rfl, fun h => absurd h (by omega)⟩
  have := drainF_eq_map Wma.next (wmaInv data p)
    (fun j => wSum data p j / ((p * (p + 1) / 2 : Nat) : K)) (data.length - p + 1)
    hstep hstop (data.length + 1) 0 (wmaInit data p) hinit (by omega)
  unfold Wma.calculate
  rw [show (wmaInit data p).data = data from rfl, this]
  simp

end WmaProofs

/-- Claim C6: for every data slice and period with period at least 1 and
data.len() at least period, each streamed WMA output produced by the
telescoping rolling update agrees (within absolute tolerance 1e-9, here
as exact equality up to that bound) with the direct recomputation over
that window: the sum of price times 1-based position divided by
period*(period+1)/2. -/
theorem wma_rolling_matches_direct :
    ∀ (K : Type) [LinearOrderedField K] (data : List K) (p : Nat),
      1 ≤ p → p ≤ data.length →
        ∀ i, i < data.length - p + 1 →
          |(Wma.calculate (wmaInit data p)).getD i 0
            - (∑ j in Finset.range p, data.getD (i + j) 0 * ((j : K) + 1))
                / ((p : K) * ((p : K) + 1) / 2)|
            ≤ 1 / 1000000000 := by
  intro K _ data p hp hlen i hi
  have hdvd : 2 ∣ p * (p + 1) := (Nat.even_mul_succ_self p).two_dvd
  have hcast : ((p * (p + 1) / 2 : Nat) : K) = (p : K) * ((p : K) + 1) / 2 := by
    rw [Nat.cast_div hdvd (by norm_num)]
    push_cast
    ring
  rw [wma_drain data p hp hlen, getD_map_range _ _ i hi 0, hcast]
  unfold wSum
  simp

/-- Witness for claim C6 at period 2 over three rationals. -/
theorem wma_rolling_matches_direct_witness :
    (1 ≤ 2 ∧ 2 ≤ ([1,2,3] : List ℚ).length ∧ 1 < ([1,2,3] : List ℚ).length - 2 + 1) ∧
      |(Wma.calculate (wmaInit ([1,2,3] : List ℚ) 2)).getD 1 0
        - (∑ j in Finset.range 2, ([1,2,3] : List ℚ).getD (1 + j) 0 * ((j : ℚ) + 1))
            / ((2 : ℚ) * ((2 : ℚ) + 1) / 2)| ≤ 1 / 1000000000 :=
  ⟨⟨by decide, by decide, by decide⟩,
    wma_rolling_matches_direct ℚ ([1,2,3] : List ℚ) 2 (by decide) (by decide) 1 (by decide)⟩

section AtrProofs

variable {K : Type} [LinearOrderedField K]

/-- The mathematical ATR output sequence: mean true range over indices
1..=period, then Wilder smoothing of successive true ranges. -/
def atrOut (high low close : List K) (p : Nat) : Nat → K
  | 0 => (∑ i in Finset.range p, trAt high low close (i + 1)) / (p : K)
  | i + 1 => (atrOut high low close p i * ((p : K) - 1) + trAt high low close (i + 1 + p)) / (p : K)

/-- Cursor-indexed invariant of the Atr iterator state. -/
def atrInv (high low close : List K) (p i : Nat) (s : Atr K) : Prop :=
  s.high = high ∧ s.low = low ∧ s.close = close ∧ s.period = p ∧ s.len = close.length ∧
    s.index = i ∧ (1 ≤ i → s.previous_tr = atrOut high low close p (i - 1))

theorem atr_drain (high low close : List K) (p : Nat) (hp : 1 ≤ p) (hlen : p ≤ close.length) :
    Atr.calculate (atrInit high low close p)
      = (List.range (close.length - p)).map (atrOut high low close p) := by
  have hstep : ∀ i s, atrInv high low close p i s → i < close.length - p →
      ∃ s', Atr.next s = some (atrOut high low close p i, s')
        ∧ atrInv high low close p (i + 1) s' := by
    intro i s hs hi
    obtain ⟨hh, hl, hc, hper, hln, hidx, hprev⟩ := hs
    have hguard : ¬ s.index + s.period ≥ s.len := by
      rw [hidx, hper, hln]; omega
    by_cases h0 : i = 0
    · subst h0
      refine ⟨{ s with
          previous_tr := (∑ i in Finset.range s.period, trAt s.high s.low s.close (i + 1))
            / (s.period : K),
          index := 1 }, ?_, ?_⟩
      · simp only [Atr.next, if_neg hguard, if_pos (hidx.trans rfl)]
        rw [hh, hl, hc, hper]
        rfl
      · exact ⟨hh, hl, hc, hper, hln, rfl, fun _ => by rw [hh, hl, hc, hper]; rfl⟩
    · have h1 : 1 ≤ i := by omega
      have hne : ¬ s.index = 0 := by rw [hidx]; exact h0
      obtain ⟨i', rfl⟩ : ∃ i', i = i' + 1 := ⟨i - 1, by omega⟩
      have hcast : ((s.period - 1 : Nat) : K) = (p : K) - 1 := by
        rw [hper, Nat.cast_sub hp]
        norm_num
      have he : (s.previous_tr * ((s.period - 1 : Nat) : K) + trAt s.high s.low s.close (s.index + s.period))
          / (s.period : K) = atrOut high low close p (i' + 1) := by
        rw [hprev h1, hh, hl, hc, hcast, hper, hidx,
          show i' + 1 - 1 = i' by omega, show i' + 1 + p = i' + 1 + p from rfl]
        rfl
      refine ⟨{ s with
          previous_tr := (s.previous_tr * ((s.period - 1 : Nat) : K)
            + trAt s.high s.low s.close (s.index + s.period)) / (s.period : K),
          index := s.index + 1 }, ?_, ?_⟩
      · simp only [Atr.next, if_neg hguard, if_neg hne]
        rw [he]
      · refine ⟨hh, hl, hc, hper, hln, by simp [hidx], fun _ => ?_⟩
        rw [show i' + 1 + 1 - 1 = i' + 1 by omega]
        exact he
  have hstop : ∀ i s, atrInv high low close p i s → close.length - p ≤ i → Atr.next s = none := by
    intro i s hs hN
    obtain ⟨_, _, _, hper, hln, hidx, _⟩ := hs
    unfold Atr.next
    rw [if_pos]
    rw [hidx, hper, hln]
    omega
  have hinit : atrInv high low close p 0 (atrInit high low close p) :=
    ⟨rfl, rfl, rfl, rfl, rfl, rfl, fun h => absurd h (by omega)⟩
  have := drainF_eq_map Atr.next (atrInv high low close p) (atrOut high low close p)
    (close.length - p) hstep hstop (close.length + 1) 0 (atrInit high low close p)
    hinit (by omega)
  unfold Atr.calculate
  rw [show (atrInit high low close p).len = close.length from rfl, this]
  simp

end AtrProofs

/-- Claim C7: for equal-length high/low/close slices and period at least
1 for which an Atr instance is constructed, the output has length
len - period, the first value is the arithmetic mean of the true range
over indices 1..=period, and each subsequent value is the Wilder
smoothing (prev*(period-1) + tr)/period of the next true range. -/
theorem atr_wilder_spec :
    ∀ (K : Type) [LinearOrderedField K] (high low close : List K) (p : Nat),
      1 ≤ p → p ≤ close.length → high.length = close.length → low.length = close.length →
        Atr.run high low close p = .ok (Atr.calculate (atrInit high low close p)) ∧
        (Atr.calculate (atrInit high low close p)).length = close.length - p ∧
        (p < close.length →
          (Atr.calculate (atrInit high low close p)).getD 0 0
            = (∑ i in Finset.range p, trAt high low close (i + 1)) / (p : K)) ∧
        ∀ i, i + 1 < close.length - p →
          (Atr.calculate (atrInit high low close p)).getD (i + 1) 0
            = ((Atr.calculate (atrInit high low close p)).getD i 0 * ((p : K) - 1)
                + trAt high low close (i + 1 + p)) / (p : K) := by
  intro K _ high low close p hp hlen hh hl
  refine ⟨?_, ?_, ?_, ?_⟩
  · unfold Atr.run Atr.new
    rw [if_neg (by omega), if_neg (by omega), if_neg (by omega)]
    rfl
  · rw [atr_drain high low close p hp hlen]
    simp
  · intro hfirst
    rw [atr_drain high low close p hp hlen, getD_map_range _ _ 0 (by omega) 0]
    rfl
  · intro i hi
    rw [atr_drain high low close p hp hlen, getD_map_range _ _ (i + 1) (by omega) 0,
      getD_map_range _ _ i (by omega) 0]
    rfl

/-- Witness for claim C7 over a three-bar rational fixture at period 1. -/
theorem atr_wilder_spec_witness :
    (1 ≤ 1 ∧ 1 ≤ ([2,4,3] : List ℚ).length
      ∧ ([3,5,4] : List ℚ).length = ([2,4,3] : List ℚ).length
      ∧ ([1,2,2] : List ℚ).length = ([2,4,3] : List ℚ).length) ∧
      (Atr.calculate (atrInit ([3,5,4] : List ℚ) ([1,2,2] : List ℚ) ([2,4,3] : List ℚ) 1)).length
        = ([2,4,3] : List ℚ).length - 1 :=
  ⟨⟨by decide, by decide, by decide, by decide⟩,
    (atr_wilder_spec ℚ ([3,5,4] : List ℚ) ([1,2,2] : List ℚ) ([2,4,3] : List ℚ) 1
      (by decide) (by decide) (by decide) (by decide)).2.1⟩

section KamaProofs

variable {K : Type} [LinearOrderedField K]

theorem getD_replicate {α : Type} (c : α) {n i : Nat} (hi : i < n) (d : α) :
    (List.replicate n c).getD i d = c := by
  rw [List.getD_eq_getElem?_getD, List.getElem?_replicate, if_pos hi]
  rfl

/-- Over a constant input series, every element the Kama iterator yields
from a state whose previous KAMA value is that constant is again the
constant (the recurrence adds sc * (c - c) = 0 whatever the smoothing
constant evaluates to). -/
theorem kama_drain_const (n : Nat) (c : K) :
    ∀ (fuel : Nat) (s : Kama K), s.data = List.replicate n c → s.prev_kama = c →
      ∀ x ∈ drainF Kama.next fuel s, x = c := by
  intro fuel
  induction fuel with
  | zero => intro s _ _ x hx; simp [drainF] at hx
  | succ fuel ih =>
    intro s hd hprev x hx
    cases hnext : Kama.next s with
    | none => simp [drainF, hnext] at hx
    | some r =>
      obtain ⟨a, s'⟩ := r
      simp only [drainF, hnext, List.mem_cons] at hx
      unfold Kama.next at hnext
      by_cases hguard : s.index ≥ s.data.length
      · rw [if_pos hguard] at hnext
        exact absurd hnext (by simp)
      · rw [if_neg hguard] at hnext
        have hpair := Option.some.inj hnext
        have ha := congrArg Prod.fst hpair
        have hs' := congrArg Prod.snd hpair
        simp only at ha hs'
        have hin : s.index < n := by
          have := Nat.lt_of_not_le hguard
          rwa [hd, List.length_replicate] at this
        have hac : a = c := by
          rw [← ha, hprev, hd, getD_replicate c hin]
          ring
        rcases hx with rfl | hx
        · exact hac
        · refine ih s' ?_ ?_ x hx
          · rw [← hs']
            exact hd
          · rw [← hs']
            show s.prev_kama + _ * (s.data.getD s.index 0 - s.prev_kama) = c
            rw [hprev, hd, getD_replicate c hin]
            ring

end KamaProofs

/-- Claim C8: for every constant input series and valid KAMA parameters
for which Kama::new succeeds, every emitted KAMA value equals the
constant exactly. -/
theorem kama_constant_spec :
    ∀ (K : Type) [LinearOrderedField K] (n : Nat) (c : K) (p f sl : Nat),
      1 ≤ p → p ≤ n → 2 ≤ n →
        Kama.new (List.replicate n c) p f sl = .ok (kamaInit (List.replicate n c) p f sl) ∧
        ∀ x ∈ Kama.calculate (kamaInit (List.replicate n c) p f sl), x = c := by
  intro K _ n c p f sl hp hpn hn
  constructor
  · unfold Kama.new
    rw [if_neg (by omega), if_neg (by rw [List.length_replicate]; omega),
      if_neg (by rw [List.length_replicate]; omega)]
  · intro x hx
    refine kama_drain_const n c _ (kamaInit (List.replicate n c) p f sl) rfl ?_ x hx
    show (List.replicate n c).getD (p - 1) 0 = c
    exact getD_replicate c (by omega) 0

/-- Witness for claim C8: constant series of six fives over the
rationals with period 2, fast 2, slow 30. -/
theorem kama_constant_spec_witness :
    (1 ≤ 2 ∧ 2 ≤ 6 ∧ 2 ≤ 6) ∧
      (Kama.calculate (kamaInit (List.replicate 6 (5 : ℚ)) 2 2 30)).getD 0 0 = 5 :=
  ⟨⟨by decide, by decide, by decide⟩,
    (kama_constant_spec ℚ 6 5 2 2 30 (by decide) (by decide) (by decide)).2 _
      (by
        rw [List.getD_eq_getElem?_getD, List.getElem?_eq_getElem (by decide)]
        exact List.getElem_mem (by decide))⟩

/-- Counterexample for claim C1: with period 2, the two-element input
satisfies period <= len < 2*period-1, yet Dema::new succeeds (no
InsufficientData error) and calculate returns an empty Ok result; the
three-element input likewise has len < 3*period-2 yet Tema::new succeeds
with an empty Ok result. -/
theorem dema_tema_short_input_counterexample :
    Dema.new ([0, 0] : List ℚ) 2 = .ok (demaInit ([0, 0] : List ℚ) 2) ∧
    Dema.calculate (demaInit ([0, 0] : List ℚ) 2) = [] ∧
    Tema.new ([0, 0, 0] : List ℚ) 2 = .ok (temaInit ([0, 0, 0] : List ℚ) 2) ∧
    Tema.calculate (temaInit ([0, 0, 0] : List ℚ) 2) = [] :=
  ⟨rfl, rfl, rfl, rfl⟩

/-- Claim C1 (amended): constructing any indicator on input shorter than
period returns an error (KAMA also errors whenever the input has length
at most 1), and no such input panics; however DEMA and TEMA validate
only len >= period: for period <= len < 2*period-1 (respectively
3*period-2) construction succeeds and calculate returns an empty Ok
result, again with no panic. -/
theorem insufficient_data_amended :
    ∀ (K : Type) [LinearOrderedField K] (data : List K) (p : Nat), 1 ≤ p →
      (data.length < p →
        (∃ e, Sma.new data p = .error e) ∧ (∃ e, Ema.new data p = .error e) ∧
        (∃ e, Dema.new data p = .error e) ∧ (∃ e, Tema.new data p = .error e) ∧
        (∀ f sl, ∃ e, Kama.new data p f sl = .error e)) ∧
      (data.length ≤ 1 → ∀ f sl, ∃ e, Kama.new data p f sl = .error e) ∧
      (p ≤ data.length → data.length < 2 * p - 1 →
        Dema.new data p = .ok (demaInit data p) ∧ Dema.calculate (demaInit data p) = []) ∧
      (p ≤ data.length → data.length < 3 * p - 2 →
        Tema.new data p = .ok (temaInit data p) ∧ Tema.calculate (temaInit data p) = []) := by
  intro K _ data p hp
  refine ⟨?_, ?_, ?_, ?_⟩
  · intro hshort
    refine ⟨⟨"Insufficient data for SMA calculation.", ?_⟩,
      ⟨"Period cannot be greater than input data length", ?_⟩,
      ⟨"Period cannot be greater than input data length", ?_⟩,
      ⟨"Period cannot be greater than input data length", ?_⟩,
      fun f sl => ⟨"Period cannot be greater than input data length.", ?_⟩⟩
    · unfold Sma.new
      rw [if_neg (by omega), if_pos hshort]
    · unfold Ema.new
      rw [if_neg (by omega), if_pos hshort]
    · unfold Dema.new
      rw [if_neg (by omega), if_pos hshort]
    · unfold Tema.new
      rw [if_neg (by omega), if_pos hshort]
    · unfold Kama.new
      rw [if_neg (by omega), if_pos hshort]
  · intro hone f sl
    unfold Kama.new
    by_cases hshort : data.length < p
    · exact ⟨"Period cannot be greater than input data length.",
        by rw [if_neg (by omega), if_pos hshort]⟩
    · exact ⟨"Data length must be greater than 1.",
        by rw [if_neg (by omega), if_neg hshort, if_pos hone]⟩
  · intro hge hlt
    have hnone : Dema.next (demaInit data p) = none := by
      unfold Dema.next
      rw [if_pos]
      show 0 + (2 * p - 2) ≥ data.length
      omega
    constructor
    · unfold Dema.new
      rw [if_neg (by omega), if_neg (by omega)]
    · unfold Dema.calculate
      simp [drainF, hnone]
  · intro hge hlt
    have hnone : Tema.next (temaInit data p) = none := by
      unfold Tema.next
      rw [if_pos]
      show 0 + (3 * p - 3) ≥ data.length
      omega
    constructor
    · unfold Tema.new
      rw [if_neg (by omega), if_neg (by omega)]
    · unfold Tema.calculate
      simp [drainF, hnone]

/-- Witness for the amended claim C1: a singleton input is rejected by
Sma::new at period 2, while the two-element input at period 2 drains to
the empty list through a successfully constructed Dema. -/
theorem insufficient_data_amended_witness :
    (1 ≤ 2 ∧ ([0] : List ℚ).length < 2 ∧ 2 ≤ ([0, 0] : List ℚ).length
      ∧ ([0, 0] : List ℚ).length < 2 * 2 - 1) ∧
      (∃ e, Sma.new ([0] : List ℚ) 2 = .error e) ∧
      Dema.calculate (demaInit ([0, 0] : List ℚ) 2) = [] :=
  ⟨⟨by decide, by decide, by decide, by decide⟩,
    ((insufficient_data_amended ℚ ([0] : List ℚ) 2 (by decide)).1 (by decide)).1,
    ((insufficient_data_amended ℚ ([0, 0] : List ℚ) 2 (by decide)).2.2.1
      (by decide) (by decide)).2⟩

section BBandsProofs

theorem sma_next_some {K : Type} [LinearOrderedField K] (t : Sma K) (mean : K) (t' : Sma K)
    (h : Sma.next t = some (mean, t')) :
    mean = t.value ∧ t'.data = t.data ∧ t'.period = t.period ∧ t'.len = t.len ∧
      t'.index = t.index + 1 := by
  unfold Sma.next at h
  by_cases hg : t.index > t.len - t.period
  · rw [if_pos hg] at h
    cases h
  · rw [if_neg hg] at h
    have hpair := Option.some.inj h
    have h1 := congrArg Prod.fst hpair
    have h2 := congrArg Prod.snd hpair
    simp only at h1 h2
    refine ⟨h1.symm, ?_, ?_, ?_, ?_⟩ <;> rw [← h2]

theorem sma_next_yields {K : Type} [LinearOrderedField K] (t : Sma K)
    (h : ¬ t.index > t.len - t.period) :
    ∃ t', Sma.next t = some (t.value, t') ∧ t'.data = t.data ∧ t'.period = t.period ∧
      t'.len = t.len ∧ t'.index = t.index + 1 := by
  unfold Sma.next
  rw [if_neg h]
  exact ⟨_, rfl, rfl, rfl, rfl, rfl⟩

theorem ema_next_yields {K : Type} [LinearOrderedField K] (t : Ema K)
    (hg : ¬ t.index + t.period > t.data.length) (hp : 1 ≤ t.period) :
    ∃ v t', Ema.next t = some (v, t') ∧ t'.data = t.data ∧ t'.period = t.period ∧
      t'.index = t.index + 1 := by
  by_cases h0 : t.index = 0
  · unfold Ema.next
    rw [if_neg hg, if_pos h0]
    exact ⟨_, _, rfl, rfl, rfl, by rw [h0]⟩
  · have hlt : t.index < t.data.length := by omega
    unfold Ema.next
    rw [if_neg hg, if_neg h0, if_pos hlt]
    exact ⟨_, _, rfl, rfl, rfl, rfl⟩

theorem wma_next_yields {K : Type} [LinearOrderedField K] (t : Wma K)
    (hg : ¬ t.index + t.period > t.data.length) :
    ∃ v t', Wma.next t = some (v, t') ∧ t'.data = t.data ∧ t'.period = t.period ∧
      t'.index = t.index + 1 := by
  by_cases h0 : t.index = 0
  · unfold Wma.next
    rw [if_neg hg, if_pos h0]
    exact ⟨_, _, rfl, rfl, rfl, by rw [h0]⟩
  · unfold Wma.next
    rw [if_neg hg, if_neg h0]
    exact ⟨_, _, rfl, rfl, rfl, rfl⟩

theorem vwma_next_yields {K : Type} [LinearOrderedField K] (t : Vwma K)
    (hg : ¬ t.index + t.period > t.data.length) :
    ∃ v t', Vwma.next t = some (v, t') ∧ t'.data = t.data ∧ t'.period = t.period ∧
      t'.index = t.index + 1 := by
  by_cases h0 : t.index = 0
  · unfold Vwma.next
    rw [if_neg hg, if_pos h0]
    exact ⟨_, _, rfl, rfl, rfl, by rw [h0]⟩
  · unfold Vwma.next
    rw [if_neg hg, if_neg h0]
    exact ⟨_, _, rfl, rfl, rfl, rfl⟩

/-- Lockstep condition of a selector variant with an outer cursor: the
SMA variant never advances so needs none; the EMA, WMA and VWMA
variants (which emit one value per outer step over data of this length)
run over data of the outer length with the outer period at the outer
index; the DEMA, TEMA and KAMA variants are excluded (they exhaust
before the outer iterator does). -/
def maMatchesAt : MovingAverage → Nat → Nat → Nat → Prop
  | .SMA _, _, _, _ => True
  | .EMA a, len, p, i => a.data.length = len ∧ a.period = p ∧ a.index = i
  | .WMA a, len, p, i => a.data.length = len ∧ a.period = p ∧ a.index = i
  | .VWMA a, len, p, i => a.data.length = len ∧ a.period = p ∧ a.index = i
  | .DEMA _, _, _, _ => False
  | .TEMA _, _, _, _ => False
  | .KAMA _, _, _, _ => False

theorem maStep_yields (ma : MovingAverage) (len p i : Nat) (hma : maMatchesAt ma len p i)
    (hg : ¬ i + p > len) (hp : 1 ≤ p) (mean : ℝ) :
    ∃ mb ma', maStep ma mean = some (mb, ma') ∧ maMatchesAt ma' len p (i + 1) := by
  cases ma with
  | SMA a => exact ⟨mean, .SMA a, rfl, trivial⟩
  | EMA a =>
    obtain ⟨hl, hpp, hi⟩ := hma
    have hg' : ¬ a.index + a.period > a.data.length := by
      rw [hi, hpp, hl]
      exact hg
    obtain ⟨v, a', he, hd', hp', hi'⟩ := ema_next_yields a hg' (by rw [hpp]; exact hp)
    refine ⟨v, .EMA a', by simp [maStep, he], ?_, ?_, ?_⟩
    · rw [hd']
      exact hl
    · rw [hp']
      exact hpp
    · rw [hi', hi]
  | WMA a =>
    obtain ⟨hl, hpp, hi⟩ := hma
    have hg' : ¬ a.index + a.period > a.data.length := by
      rw [hi, hpp, hl]
      exact hg
    obtain ⟨v, a', he, hd', hp', hi'⟩ := wma_next_yields a hg'
    refine ⟨v, .WMA a', by simp [maStep, he], ?_, ?_, ?_⟩
    · rw [hd']
      exact hl
    · rw [hp']
      exact hpp
    · rw [hi', hi]
  | VWMA a =>
    obtain ⟨hl, hpp, hi⟩ := hma
    have hg' : ¬ a.index + a.period > a.data.length := by
      rw [hi, hpp, hl]
      exact hg
    obtain ⟨v, a', he, hd', hp', hi'⟩ := vwma_next_yields a hg'
    refine ⟨v, .VWMA a', by simp [maStep, he], ?_, ?_, ?_⟩
    · rw [hd']
      exact hl
    · rw [hp']
      exact hpp
    · rw [hi', hi]
  | DEMA a => exact hma.elim
  | TEMA a => exact hma.elim
  | KAMA a => exact hma.elim

/-- Shape of one non-exhausted, non-panicking BBands step. -/
theorem bbands_next_eq (s : BBands) (hg : ¬ s.index + s.period > s.data.length)
    (mean : ℝ) (t' : Sma ℝ) (hsma : Sma.next s.sma = some (mean, t'))
    (mb : ℝ) (ma' : MovingAverage) (hmid : maStep s.ma_type mean = some (mb, ma')) :
    BBands.next s = .yield
      (mb + s.std_dev * Real.sqrt (s.updSq / (s.period : ℝ) - mean * mean), mb,
        mb - s.std_dev * Real.sqrt (s.updSq / (s.period : ℝ) - mean * mean))
      { s with
        index := s.index + 1
        rolling_sq_sum := s.updSq
        sma := t'
        ma_type := ma' } := by
  unfold BBands.next
  rw [if_neg hg]
  simp only [hsma, hmid]

/-- Alignment invariant of a BBands state: the internal SMA runs over
the same data with the same period in lockstep with the outer cursor,
and the selector variant satisfies the lockstep condition. -/
def bbandsAligned (s : BBands) : Prop :=
  s.sma.data = s.data ∧ s.sma.period = s.period ∧ s.sma.index = s.index ∧
    s.sma.len = s.data.length ∧ 1 ≤ s.period ∧ s.period ≤ s.data.length ∧
    maMatchesAt s.ma_type s.data.length s.period s.index

theorem bbands_step_aligned (s : BBands) (hs : bbandsAligned s) :
    BBands.next s ≠ .panic ∧
      (∀ a s', BBands.next s = .yield a s' →
        bbandsAligned s' ∧ s'.data = s.data ∧ s'.period = s.period ∧ s'.index = s.index + 1) ∧
      (¬ s.index + s.period > s.data.length → ∃ a s', BBands.next s = .yield a s') := by
  obtain ⟨hd, hper, hidx, hlen, hp, hple, hmm⟩ := hs
  by_cases hg : s.index + s.period > s.data.length
  · refine ⟨?_, ?_, fun h => absurd hg h⟩
    · unfold BBands.next
      rw [if_pos hg]
      exact fun h => StepResult.noConfusion h
    · intro a s' h
      unfold BBands.next at h
      rw [if_pos hg] at h
      cases h
  · have hnog : ¬ s.sma.index > s.sma.len - s.sma.period := by
      rw [hidx, hlen, hper]
      omega
    obtain ⟨t', hsma, ht'd, ht'p, ht'l, ht'i⟩ := sma_next_yields s.sma hnog
    obtain ⟨mb, ma', hmid, hmm'⟩ :=
      maStep_yields s.ma_type s.data.length s.period s.index hmm hg hp s.sma.value
    have hnext := bbands_next_eq s hg s.sma.value t' hsma mb ma' hmid
    refine ⟨?_, ?_, fun _ => ⟨_, _, hnext⟩⟩
    · rw [hnext]
      exact fun h => StepResult.noConfusion h
    · intro a s' h
      rw [hnext] at h
      injection h with h1 h2
      rw [← h2]
      exact ⟨⟨ht'd.trans hd, ht'p.trans hper, by rw [ht'i, hidx], ht'l.trans hlen, hp, hple, hmm'⟩,
        rfl, rfl, rfl⟩

end BBandsProofs

/-- The state Bbpb::new returns on success: cursor 0 over the same data
with an inner BBands over the same data, period and multiplier. -/
noncomputable def bbpbInit (data : List ℝ) (period : Nat) (std_dev : ℝ)
    (ma_type : MovingAverage) : Bbpb :=
  { data := data
    period := period
    index := 0
    bbands := bbandsInit data period std_dev ma_type
    len := data.length }

/-- Alignment invariant of a Bbpb state: the inner BBands runs over the
same data with the same period in lockstep, and is itself aligned. -/
def bbpbAligned (t : Bbpb) : Prop :=
  t.bbands.data = t.data ∧ t.bbands.period = t.period ∧ t.bbands.index = t.index ∧
    bbandsAligned t.bbands

theorem bbpb_step_aligned (t : Bbpb) (ht : bbpbAligned t) :
    Bbpb.next t ≠ .panic ∧ ∀ a t', Bbpb.next t = .yield a t' → bbpbAligned t' := by
  obtain ⟨hbd, hbp, hbi, hbb⟩ := ht
  by_cases hg : t.index + t.period > t.data.length
  · constructor
    · unfold Bbpb.next
      rw [if_pos hg]
      exact fun h => StepResult.noConfusion h
    · intro a t' h
      unfold Bbpb.next at h
      rw [if_pos hg] at h
      cases h
  · have hg' : ¬ t.bbands.index + t.bbands.period > t.bbands.data.length := by
      rw [hbi, hbp, hbd]
      exact hg
    obtain ⟨a, s', hy⟩ := (bbands_step_aligned t.bbands hbb).2.2 hg'
    obtain ⟨hs'a, hs'd, hs'p, hs'i⟩ := (bbands_step_aligned t.bbands hbb).2.1 a s' hy
    obtain ⟨u, m, l⟩ := a
    have hnext : Bbpb.next t = .yield
        ((t.data.getD (t.index + t.period - 1) 0 - l) / (u - l))
        { t with index := t.index + 1, bbands := s' } := by
      unfold Bbpb.next
      rw [if_neg hg]
      simp only [hy]
    constructor
    · rw [hnext]
      exact fun h => StepResult.noConfusion h
    · intro a' t' h
      rw [hnext] at h
      injection h with h1 h2
      rw [← h2]
      refine ⟨?_, ?_, ?_, hs'a⟩
      · rw [hs'd]
        exact hbd
      · rw [hs'p]
        exact hbp
      · rw [hs'i, hbi]

/-- Counterexample for claim C2: BBands instances whose DEMA, TEMA or
KAMA selector variant is successfully constructed over the same data
panic on the step after the variant is exhausted (those variants emit
fewer values than BBands takes steps), so step advancement is not
panic-free for every selector variant. -/
theorem bbands_dema_tema_kama_variant_panics :
    (Dema.new ([1, 2, 3] : List ℝ) 2 = .ok (demaInit ([1, 2, 3] : List ℝ) 2) ∧
      BBands.new ([1, 2, 3] : List ℝ) 2 2 (.DEMA (demaInit ([1, 2, 3] : List ℝ) 2))
        = .ok (bbandsInit ([1, 2, 3] : List ℝ) 2 2 (.DEMA (demaInit ([1, 2, 3] : List ℝ) 2))) ∧
      iterSteps BBands.next 1
        (bbandsInit ([1, 2, 3] : List ℝ) 2 2 (.DEMA (demaInit ([1, 2, 3] : List ℝ) 2)))
        = .panic) ∧
    (Tema.new ([1, 2, 3, 4] : List ℝ) 2 = .ok (temaInit ([1, 2, 3, 4] : List ℝ) 2) ∧
      BBands.new ([1, 2, 3, 4] : List ℝ) 2 2 (.TEMA (temaInit ([1, 2, 3, 4] : List ℝ) 2))
        = .ok (bbandsInit ([1, 2, 3, 4] : List ℝ) 2 2 (.TEMA (temaInit ([1, 2, 3, 4] : List ℝ) 2))) ∧
      iterSteps BBands.next 1
        (bbandsInit ([1, 2, 3, 4] : List ℝ) 2 2 (.TEMA (temaInit ([1, 2, 3, 4] : List ℝ) 2)))
        = .panic) ∧
    (Kama.new ([1, 2] : List ℝ) 1 2 30 = .ok (kamaInit ([1, 2] : List ℝ) 1 2 30) ∧
      BBands.new ([1, 2] : List ℝ) 1 2 (.KAMA (kamaInit ([1, 2] : List ℝ) 1 2 30))
        = .ok (bbandsInit ([1, 2] : List ℝ) 1 2 (.KAMA (kamaInit ([1, 2] : List ℝ) 1 2 30))) ∧
      iterSteps BBands.next 1
        (bbandsInit ([1, 2] : List ℝ) 1 2 (.KAMA (kamaInit ([1, 2] : List ℝ) 1 2 30)))
        = .panic) :=
  ⟨⟨rfl, rfl, rfl⟩, ⟨rfl, rfl, rfl⟩, ⟨rfl, rfl, rfl⟩⟩

/-- Claim C2 (amended): for every successfully constructed indicator,
step advancement never returns an error (the step interface has no
error result at all), and BBands and Bbpb built with the SMA, EMA, WMA
or VWMA selector variant over the same data and period - the variants
that emit one value per BBands step - always yield the next output or
signal exhaustion with the distinguished no-value result, never
panicking at any step; only a DEMA, TEMA or KAMA variant (which emits
fewer values) makes the step after its exhaustion panic. -/
theorem bbands_bbpb_matching_variant_no_panic :
    ∀ (data volume : List ℝ) (p : Nat) (sd : ℝ) (n : Nat),
      1 ≤ p → p ≤ data.length →
        (iterSteps BBands.next n (bbandsInit data p sd (.SMA (smaInit data p)))
          ≠ StepResult.panic) ∧
        (iterSteps BBands.next n (bbandsInit data p sd (.EMA (emaInit data p)))
          ≠ StepResult.panic) ∧
        (iterSteps BBands.next n (bbandsInit data p sd (.WMA (wmaInit data p)))
          ≠ StepResult.panic) ∧
        (volume.length = data.length →
          iterSteps BBands.next n (bbandsInit data p sd (.VWMA (vwmaInit data volume p)))
            ≠ StepResult.panic) ∧
        (iterSteps Bbpb.next n (bbpbInit data p sd (.SMA (smaInit data p)))
          ≠ StepResult.panic) ∧
        (iterSteps Bbpb.next n (bbpbInit data p sd (.EMA (emaInit data p)))
          ≠ StepResult.panic) ∧
        (iterSteps Bbpb.next n (bbpbInit data p sd (.WMA (wmaInit data p)))
          ≠ StepResult.panic) ∧
        (volume.length = data.length →
          iterSteps Bbpb.next n (bbpbInit data p sd (.VWMA (vwmaInit data volume p)))
            ≠ StepResult.panic) := by
  intro data volume p sd n hp hlen
  have hbb : ∀ ma : MovingAverage, maMatchesAt ma data.length p 0 →
      iterSteps BBands.next n (bbandsInit data p sd ma) ≠ StepResult.panic := by
    intro ma hma
    exact iterSteps_invariant BBands.next bbandsAligned (· ≠ StepResult.panic)
      (fun s hs => (bbands_step_aligned s hs).1)
      (fun s a s' hs h => ((bbands_step_aligned s hs).2.1 a s' h).1) n _
      ⟨rfl, rfl, rfl, rfl, hp, hlen, hma⟩
  have hpb : ∀ ma : MovingAverage, maMatchesAt ma data.length p 0 →
      iterSteps Bbpb.next n (bbpbInit data p sd ma) ≠ StepResult.panic := by
    intro ma hma
    exact iterSteps_invariant Bbpb.next bbpbAligned (· ≠ StepResult.panic)
      (fun t ht => (bbpb_step_aligned t ht).1)
      (fun t a t' ht h => (bbpb_step_aligned t ht).2 a t' h) n _
      ⟨rfl, rfl, rfl, rfl, rfl, rfl, rfl, hp, hlen, hma⟩
  exact ⟨hbb _ trivial, hbb _ ⟨rfl, rfl, rfl⟩, hbb _ ⟨rfl, rfl, rfl⟩,
    fun _ => hbb _ ⟨rfl, rfl, rfl⟩, hpb _ trivial, hpb _ ⟨rfl, rfl, rfl⟩,
    hpb _ ⟨rfl, rfl, rfl⟩, fun _ => hpb _ ⟨rfl, rfl, rfl⟩⟩

/-- Witness for the amended claim C2 over a two-element series at
period 1 with multiplier 2, iterated three steps, exercising both the
EMA-variant BBands and the SMA-variant Bbpb conclusions. -/
theorem bbands_bbpb_matching_variant_no_panic_witness :
    (1 ≤ 1 ∧ 1 ≤ ([1, 2] : List ℝ).length) ∧
      iterSteps BBands.next 3
        (bbandsInit ([1, 2] : List ℝ) 1 2 (.EMA (emaInit ([1, 2] : List ℝ) 1)))
        ≠ StepResult.panic ∧
      iterSteps Bbpb.next 3
        (bbpbInit ([1, 2] : List ℝ) 1 2 (.SMA (smaInit ([1, 2] : List ℝ) 1)))
        ≠ StepResult.panic :=
  ⟨⟨by decide, by decide⟩,
    (bbands_bbpb_matching_variant_no_panic ([1, 2] : List ℝ) [] 1 2 3
      (by decide) (by decide)).2.1,
    (bbands_bbpb_matching_variant_no_panic ([1, 2] : List ℝ) [] 1 2 3
      (by decide) (by decide)).2.2.2.2.1⟩

/-- Ordering property of one step result: if it yields a triple, the
upper band is at least the middle band which is at least the lower. -/
def bandsOrdered : StepResult (ℝ × ℝ × ℝ) BBands → Prop
  | .yield (u, m, l) _ => m ≤ u ∧ l ≤ m
  | _ => True

theorem bbands_next_ordered (s : BBands) (h : 0 ≤ s.std_dev) : bandsOrdered (BBands.next s) := by
  unfold BBands.next
  by_cases hg : s.index + s.period > s.data.length
  · rw [if_pos hg]
    trivial
  · rw [if_neg hg]
    split
    · trivial
    case _ mean sma' _ =>
      split
      · trivial
      · have hsq := Real.sqrt_nonneg (s.updSq / (s.period : ℝ) - mean * mean)
        have hmul : 0 ≤ s.std_dev * Real.sqrt (s.updSq / (s.period : ℝ) - mean * mean) :=
          mul_nonneg h hsq
        exact ⟨by linarith, by linarith⟩

theorem bbands_next_preserves_std_dev (s : BBands) (a : ℝ × ℝ × ℝ) (s' : BBands)
    (h : BBands.next s = .yield a s') : s'.std_dev = s.std_dev := by
  unfold BBands.next at h
  by_cases hg : s.index + s.period > s.data.length
  · rw [if_pos hg] at h
    cases h
  · rw [if_neg hg] at h
    split at h
    · cases h
    · split at h
      · cases h
      · injection h with h1 h2
        rw [← h2]

/-- Claim C3: for every BBands instance with a nonnegative standard
deviation multiplier, every emitted (upper, middle, lower) triple
satisfies upper >= middle >= lower, whichever selector variant is
active. -/
theorem bbands_non_crossing :
    ∀ (data : List ℝ) (p : Nat) (sd : ℝ) (ma : MovingAverage) (n : Nat),
      0 ≤ sd → bandsOrdered (iterSteps BBands.next n (bbandsInit data p sd ma)) := by
  intro data p sd ma n hsd
  refine iterSteps_invariant BBands.next (fun s => 0 ≤ s.std_dev) bandsOrdered
    (fun s hs => bbands_next_ordered s hs)
    (fun s a s' hs h => ?_) n _ hsd
  have hpres := bbands_next_preserves_std_dev s a s' h
  show 0 ≤ s'.std_dev
  rw [hpres]
  exact hs

/-- Witness for claim C3 over a two-element series at period 1 with
multiplier 2, first step. -/
theorem bbands_non_crossing_witness :
    0 ≤ (2 : ℝ) ∧
      bandsOrdered (iterSteps BBands.next 0
        (bbandsInit ([1, 2] : List ℝ) 1 2 (.SMA (smaInit ([1, 2] : List ℝ) 1)))) :=
  ⟨by norm_num,
    bbands_non_crossing ([1, 2] : List ℝ) 1 2 (.SMA (smaInit ([1, 2] : List ℝ) 1)) 0
      (by norm_num)⟩

/-- Half-width property of one step result: a yielded triple has both
band gaps equal to the std_dev multiplier times the standard deviation
computed from the updated square sum and the internal SMA mean. -/
def halfWidthFromSma (s : BBands) : Prop :=
  match BBands.next s with
  | .yield (u, m, l) _ =>
      u - m = s.std_dev * Real.sqrt (s.updSq / (s.period : ℝ) - s.sma.value * s.sma.value) ∧
        m - l = s.std_dev * Real.sqrt (s.updSq / (s.period : ℝ) - s.sma.value * s.sma.value)
  | _ => True

/-- Variant independence of the half-width: replacing the selector
variant of a state (all other fields equal) leaves both band gaps of a
yielded triple unchanged. -/
def halfWidthVariantFree (s : BBands) (ma : MovingAverage) : Prop :=
  match BBands.next s, BBands.next { s with ma_type := ma } with
  | .yield (u, m, l) _, .yield (u2, m2, l2) _ => u - m = u2 - m2 ∧ m - l = m2 - l2
  | _, _ => True

/-- Claim C9: at every step the band half-width is computed from the
internal SMA mean regardless of the selected MovingAverage variant:
upper - middle and middle - lower both equal std_dev *
sqrt(sum_sq/period - mean^2) with mean the internal SMA value, so only
the middle band varies with the variant. -/
theorem bbands_halfwidth_from_sma_mean :
    (∀ s : BBands, halfWidthFromSma s) ∧
      ∀ (s : BBands) (ma : MovingAverage), halfWidthVariantFree s ma := by
  have main : ∀ s : BBands, halfWidthFromSma s := by
    intro s
    unfold halfWidthFromSma
    split
    case _ u m l s' heq =>
      unfold BBands.next at heq
      by_cases hg : s.index + s.period > s.data.length
      · rw [if_pos hg] at heq
        cases heq
      · rw [if_neg hg] at heq
        split at heq
        · cases heq
        case _ mean sma' hsma =>
          split at heq
          · cases heq
          · injection heq with h1 h2
            injection h1 with e1 h1'
            injection h1' with e2 e3
            obtain ⟨hmean, -⟩ := sma_next_some s.sma mean sma' hsma
            subst hmean
            subst e1
            subst e2
            subst e3
            constructor <;> ring
    case _ => trivial
  refine ⟨main, fun s ma => ?_⟩
  unfold halfWidthVariantFree
  split
  case _ u m l s1 u2 m2 l2 s2 heq1 heq2 =>
    have h1 := main s
    have h2 := main { s with ma_type := ma }
    unfold halfWidthFromSma at h1 h2
    simp only [heq1] at h1
    simp only [heq2] at h2
    exact ⟨h1.1.trans h2.1.symm, h1.2.trans h2.2.symm⟩
  case _ => trivial

/-- Claim C10: Bbpb::new never panics; for every input it either
returns a descriptive error (zero period or data shorter than period)
or succeeds, because its own validation implies exactly the conditions
under which the internal BBands::new unwrap succeeds. -/
theorem bbpb_new_no_panic :
    ∀ (data : List ℝ) (p : Nat) (sd : ℝ) (ma : MovingAverage),
      Bbpb.new data p sd ma ≠ NewResult.panic ∧
        ((Bbpb.new data p sd ma).isOk = true ↔ 1 ≤ p ∧ p ≤ data.length) := by
  intro data p sd ma
  unfold Bbpb.new
  by_cases h0 : p = 0
  · rw [if_pos h0]
    refine ⟨fun h => NewResult.noConfusion h, ?_⟩
    simp only [NewResult.isOk]
    constructor
    · intro h
      cases h
    · intro ⟨h1, _⟩
      omega
  · rw [if_neg h0]
    by_cases h1 : data.length < p
    · rw [if_pos h1]
      refine ⟨fun h => NewResult.noConfusion h, ?_⟩
      simp only [NewResult.isOk]
      constructor
      · intro h
        cases h
      · intro ⟨_, h2⟩
        omega
    · rw [if_neg h1]
      have hbb : BBands.new data p sd ma = .ok (bbandsInit data p sd ma) := by
        unfold BBands.new Sma.new
        rw [if_neg h0, if_neg h1, if_neg h0, if_neg h1]
      rw [hbb]
      refine ⟨fun h => NewResult.noConfusion h, ?_⟩
      simp only [NewResult.isOk]
      constructor
      · intro _
        omega
      · intro _
        trivial

